import Mathlib

/-!
Verification development for the `mpitest` MPI test harness
(`src/mpitest/mpitest.h`, `src/mpitest/mpitest.cpp`).

The embedding below translates the harness's data model, its comparison
predicates (including the bit-level IEEE-754 binary64 tolerance comparison),
its failure-registration routine, its failure-aggregation protocol and its
driver loop into executable Lean definitions.  Floating-point doubles are
modelled exactly by their 64-bit patterns (`Nat` below `2^64`); the values of
finite doubles are integer multiples of `2^-1074` and are handled as exact
scaled integers, with correctly-rounded (round-to-nearest, ties-to-even)
subtraction.
-/

/- ------------------------------------------------------------------ -/
/- Data model (mpitest.h lines 19-63)                                  -/
/- ------------------------------------------------------------------ -/

/-- `assert_info` (mpitest.h:20-25): compile-time information about an
assertion call site. -/
structure assert_info where
  line : Int
  file : String
  test_string : String
  deriving DecidableEq

/-- `fail_info` (mpitest.h:30-34): one recorded test failure. -/
structure fail_info where
  assertion : assert_info
  reason : String
  deriving DecidableEq

/-- `test_info` (mpitest.h:39-45): a single registered test.  The entry
point `fptr` is an external black box (it signals failures only through the
comparison library), so it is not part of this record; the driver model
below takes the per-rank failure ledgers it produces as a parameter. -/
structure test_info where
  test_name : String
  test_size : Nat
  fails : List fail_info
  deriving DecidableEq

/-- `test_list` (mpitest.h:57-63): the per-process singleton registry.
`current_test` is a C++ `int`; it is zero-initialized (static storage) and
is only ever assigned by the driver loop. -/
structure test_list where
  current_test : Int
  tests : List test_info
  deriving DecidableEq

instance : Inhabited test_info := ⟨⟨"", 0, []⟩⟩

/-- `add_test` (mpitest.cpp:15-22): pushes one `test_info` per requested
size onto the registry, in the order the sizes are listed. -/
def add_test (l : test_list) (test_sizes : List Nat) (name : String) : test_list :=
  { l with
    tests := test_sizes.foldl (fun ts sz => ts ++ [⟨name, sz, []⟩]) l.tests }

/-- In-bounds condition for the registry cursor: `tests[current_test]` is a
valid `std::vector` access. -/
def current_ok (l : test_list) : Prop :=
  0 ≤ l.current_test ∧ l.current_test.toNat < l.tests.length

instance (l : test_list) : Decidable (current_ok l) := by
  unfold current_ok; infer_instance

/-- `register_error` (mpitest.cpp:24-28): appends a failure record to the
ledger of the test at index `current_test`.  The C++ code performs the
vector access `tests[current_test]` with no bounds or "active test" check;
an out-of-range cursor is undefined behaviour, modelled here as `none`. -/
def register_error (l : test_list) (assertion : assert_info) (reason : String) :
    Option test_list :=
  if h : current_ok l then
    let i := l.current_test.toNat
    let t := l.tests.get ⟨i, h.2⟩
    some { l with
           tests := l.tests.set i { t with fails := t.fails ++ [⟨assertion, reason⟩] } }
  else
    none

/- ------------------------------------------------------------------ -/
/- IEEE-754 binary64 bit-pattern model                                 -/
/- ------------------------------------------------------------------ -/

/-- Fuelled floor-log2 on naturals (`natLog2F fuel n` with `fuel ≥ n` equals
the number of halvings of `n` down below 2). -/
def natLog2F : Nat → Nat → Nat
  | 0, _ => 0
  | f + 1, n => if 2 ≤ n then natLog2F f (n / 2) + 1 else 0

/-- Floor of `log2 n` for `n ≥ 1` (0 at 0), kernel-reducible. -/
def natLog2 (n : Nat) : Nat := natLog2F n n

/-- Floor of `log2 (p / q)` for naturals `p, q ≥ 1`, as an integer. -/
def floorLog2Rat (p q : Nat) : Int :=
  let lp : Int := natLog2 p
  let lq : Int := natLog2 q
  if q * 2 ^ (lp - lq).toNat ≤ p * 2 ^ (lq - lp).toNat then lp - lq else lp - lq - 1

/-- Round `m / q` to the nearest natural, ties to even. -/
def roundHalfEven (m q : Nat) : Nat :=
  let n := m / q
  let r := m % q
  if q < 2 * r then n + 1
  else if 2 * r < q then n
  else if n % 2 = 0 then n else n + 1

/-- The IEEE-754 binary64 bit pattern nearest to the rational `num / den`
(`den ≥ 1`), round-to-nearest ties-to-even, overflowing to the infinity
pattern.  Exactly representable inputs (in particular every difference of
two finite doubles) are returned exactly. -/
def f64OfRat (num : Int) (den : Nat) : Nat :=
  if num = 0 then 0
  else
    let s : Nat := if num < 0 then 2 ^ 63 else 0
    let p := num.natAbs
    let l := floorLog2Rat p den
    if l < -1022 then
      -- subnormal range: grid spacing 2^-1074
      s + roundHalfEven (p * 2 ^ 1074) den
    else
      -- normal range: keep 53 significant bits
      let shift := l - 52
      let n :=
        if 0 ≤ shift then roundHalfEven p (den * 2 ^ shift.toNat)
        else roundHalfEven (p * 2 ^ (-shift).toNat) den
      let n2 := if n = 2 ^ 53 then 2 ^ 52 else n
      let l2 := if n = 2 ^ 53 then l + 1 else l
      let biased := l2 + 1023
      if 2047 ≤ biased then s + 2047 * 2 ^ 52
      else s + biased.toNat * 2 ^ 52 + (n2 - 2 ^ 52)

/-- Sign field of a binary64 pattern. -/
def f64_sign (u : Nat) : Nat := u / 2 ^ 63

/-- Biased exponent field of a binary64 pattern. -/
def f64_expo (u : Nat) : Nat := u / 2 ^ 52 % 2 ^ 11

/-- Mantissa field of a binary64 pattern. -/
def f64_mant (u : Nat) : Nat := u % 2 ^ 52

/-- `std::isnan` on a pattern. -/
def isNanP (u : Nat) : Prop := f64_expo u = 2047 ∧ f64_mant u ≠ 0

instance (u : Nat) : Decidable (isNanP u) := by unfold isNanP; infer_instance

/-- `std::isinf` on a pattern. -/
def isInfP (u : Nat) : Prop := f64_expo u = 2047 ∧ f64_mant u = 0

instance (u : Nat) : Decidable (isInfP u) := by unfold isInfP; infer_instance

/-- The pattern denotes a finite double. -/
def isFiniteP (u : Nat) : Prop := f64_expo u ≠ 2047

instance (u : Nat) : Decidable (isFiniteP u) := by unfold isFiniteP; infer_instance

/-- Exact value of a finite binary64 pattern, scaled by `2^1074` (every
finite double is an integer multiple of `2^-1074`). -/
def toScaled (u : Nat) : Int :=
  let mag : Nat :=
    if f64_expo u = 0 then f64_mant u
    else (2 ^ 52 + f64_mant u) * 2 ^ (f64_expo u - 1)
  if f64_sign u = 1 then -(mag : Int) else (mag : Int)

/-- Ordering key extending `toScaled` to the infinities (any bound above
the largest finite scaled magnitude `(2^53 - 1) * 2^2045` works). -/
def keyScaled (u : Nat) : Int :=
  if f64_expo u = 2047 then
    (if f64_sign u = 1 then -(2 ^ 2100 : Int) else (2 ^ 2100 : Int))
  else toScaled u

/-- IEEE `<` on patterns (false whenever an operand is NaN). -/
def fltB (a b : Nat) : Bool :=
  !decide (isNanP a) && !decide (isNanP b) && decide (keyScaled a < keyScaled b)

/-- IEEE `>` on patterns. -/
def fgtB (a b : Nat) : Bool := fltB b a

/-- `fabs` on patterns: clear the sign bit. -/
def fabsP (u : Nat) : Nat := u % 2 ^ 63

/-- `std::signbit` on patterns. -/
def signbitB (u : Nat) : Bool := decide (2 ^ 63 ≤ u)

/-- IEEE binary64 subtraction on finite patterns: the exact difference is a
multiple of `2^-1074`, rounded back to the nearest double. -/
def fsub (a b : Nat) : Nat := f64OfRat (toScaled a - toScaled b) (2 ^ 1074)

/-- `std::numeric_limits<double>::epsilon() = 2^-52`, the default `abs_tol`
of `assert_ieee754_eq` (mpitest.h:119). -/
def dblEpsP : Nat := f64OfRat 1 (2 ^ 52)

/-- Decimal rendering of a double used inside failure-message text (the C++
streams the value with `setprecision(digits10 + 1)`; the exact digit string
is irrelevant to every claim, so the exact scaled integer value is rendered,
which is injective on finite patterns). -/
def showF64 (u : Nat) : String := toString (keyScaled u)

/- ------------------------------------------------------------------ -/
/- Comparison predicates (mpitest.h lines 79-212)                      -/
/- ------------------------------------------------------------------ -/

/-- `assert_true` (mpitest.h:79-89), parameterized over the C++ type's
boolean conversion and `operator<<` rendering.  Returns the predicate's
result together with the reason passed to `register_error` on failure. -/
def assert_true {T : Type} (truthy : T → Bool) (toStr : T → String)
    (statement : T) : Bool × Option String :=
  if truthy statement then (true, none)
  else (false, some (toStr statement ++ " is falsy"))

/-- `assert_eq` (mpitest.h:93-103), parameterized over the C++ type's
`operator==` (decidable equality) and `operator<<` rendering. -/
def assert_eq {T : Type} [DecidableEq T] (toStr : T → String)
    (a b : T) : Bool × Option String :=
  if a = b then (true, none)
  else (false, some (toStr a ++ " does not equal " ++ toStr b))

/-- `assert_ieee754_eq` (mpitest.h:114-212) instantiated at
`<double, uint64_t>` (the `EXPECT_DOUBLE_EQ` / `ASSERT_DOUBLE_EQ`
instantiation, mpitest.h:276-291).  Operands and `abs_tol` are binary64 bit
patterns; `ulp_tol` is a C++ `int`, converted to `uint64_t` (mod `2^64`)
by the unsigned comparison `au - bu > ulp_tol`.  Reinterpreting the operand
bit patterns as unsigned integers is the identity on patterns. -/
def assert_ieee754_eq (a b : Nat) (ulp_tol : Int) (abs_tol : Nat) :
    Bool × Option String :=
  -- quick out if the input is garbage (mpitest.h:125-153); the two reason
  -- fragments accumulate exactly as the stream writes do
  if ¬ isFiniteP a ∨ ¬ isFiniteP b then
    (false, some (
      (if isNanP a then "the first argument is nan! "
       else if isInfP a then "the first argument is inf! " else "")
      ++ (if isNanP b then "the second argument is nan! "
          else if isInfP b then "the second argument is inf! " else "")))
  else
    -- the reinterpretation of the operands to unsigned integers
    -- (mpitest.h:157-158) is the identity on bit patterns: au = a, bu = b
    -- absolute comparison (mpitest.h:162-180)
    if signbitB a ≠ signbitB b ∨ (fltB (fabsP a) abs_tol ∧ fltB (fabsP b) abs_tol) then
      if fgtB (fabsP (fsub a b)) abs_tol then
        (false, some ("absolute difference between " ++ showF64 a ++ " and "
          ++ showF64 b ++ " (" ++ showF64 (fabsP (fsub a b)) ++ ")"
          ++ " is outside the requested tolerance " ++ showF64 abs_tol))
      else (true, none)
    else
      -- ulp comparison (mpitest.h:184-209)
      if b < a then
        if (ulp_tol % 2 ^ 64).toNat < a - b then
          (false, some (showF64 a ++ " and " ++ showF64 b ++ " differ by "
            ++ toString (a - b) ++ " ULPs, the requested tolerance is "
            ++ toString ulp_tol ++ " ULPs"))
        else (true, none)
      else if a < b then
        if (ulp_tol % 2 ^ 64).toNat < b - a then
          (false, some (showF64 a ++ " and " ++ showF64 b ++ " differ by "
            ++ toString (b - a) ++ " ULPs, the requested tolerance is "
            ++ toString ulp_tol ++ " ULPs"))
        else (true, none)
      else (true, none)

/-- Composition of a predicate's outcome with `register_error`, as performed
inside each predicate body: on success nothing happens, on failure the
reason is registered. -/
def runAssert (l : test_list) (info : assert_info) :
    Bool × Option String → Option (Bool × test_list)
  | (r, none) => some (r, l)
  | (r, some reason) => (register_error l info reason).map (fun l2 => (r, l2))

/- ------------------------------------------------------------------ -/
/- Failure-aggregation protocol (mpitest.cpp lines 117-213)            -/
/- ------------------------------------------------------------------ -/

/-- Pairs every element of a list with its index, starting at `k`. -/
def withIdxFrom {α : Type} (k : Nat) : List α → List (Nat × α)
  | [] => []
  | x :: xs => (k, x) :: withIdxFrom (k + 1) xs

/-- Pairs every element of a list with its zero-based index. -/
def withIdx {α : Type} (l : List α) : List (Nat × α) := withIdxFrom 0 l

/-- `FAIL_MESSAGE_SIZE` (mpitest.cpp:5). -/
def FAIL_MESSAGE_SIZE : Nat := 1024

/-- The failure-message text a participant of sub-rank `r` serializes for
one record (mpitest.cpp:161-168); `snprintf` truncates the text to at most
`FAIL_MESSAGE_SIZE - 1` characters. -/
def fmtFailMsg (r : Nat) (f : fail_info) : String :=
  ("  " ++ f.assertion.test_string ++ " FAILED (on proc " ++ toString r
    ++ " line " ++ toString f.assertion.line ++ " of " ++ f.assertion.file
    ++ ")\n    " ++ f.reason).take (FAIL_MESSAGE_SIZE - 1)

/-- The non-blocking sends a participant of sub-rank `r` posts for its
ledger `lg` (mpitest.cpp:159-177): one message per recorded failure, to
destination 0, tagged with the record's zero-based ledger index `fi`, in
ledger order.  Entries are `(dest, tag, payload)`. -/
def sendsOf (r : Nat) (lg : List fail_info) : List (Nat × Nat × String) :=
  (withIdx lg).map (fun p => (0, p.1, fmtFailMsg r p.2))

/-- Delivery of a tagged message: the unique send with matching tag in the
sender's posted-send list. -/
def msgLookup (sends : List (Nat × Nat × String)) (tag : Nat) : Option String :=
  (sends.find? (fun m => m.2.1 == tag)).map (fun m => m.2.2)

/-- The `MPI_Gather` of local failure counts (mpitest.cpp:127-135): the
coordinator learns `num_fails_by_rank[ri] = ledger of rank ri |>.length`. -/
def gatherCounts (ledgers : List (List fail_info)) : List Nat :=
  ledgers.map List.length

/-- The coordinator's summed failure count (mpitest.cpp:138-142). -/
def totalFails (ledgers : List (List fail_info)) : Nat :=
  (gatherCounts ledgers).sum

/-- The `(source, tag)` sequence of the coordinator's blocking receives
(mpitest.cpp:182-198): participants in ascending rank order, and per
participant exactly `num_fails_by_rank[ri]` receives with tags `0, 1, ...`
in ascending order. -/
def recvSeq (counts : List Nat) : List (Nat × Nat) :=
  (withIdx counts).flatMap (fun p => (List.range p.2).map (fun fi => (p.1, fi)))

/-- The failure-message lines the coordinator prints (mpitest.cpp:180-199):
each receive is matched against the sender's posted sends by tag and its
payload printed immediately on receipt. -/
def coordinatorPrints (ledgers : List (List fail_info)) : List String :=
  (recvSeq (gatherCounts ledgers)).filterMap
    (fun p => msgLookup (sendsOf p.1 (ledgers.getD p.1 [])) p.2)

/-- Communication and console events of one participant's program order
during a single test case. -/
inductive Event : Type where
  | print (s : String)
  | runEntry
  | gather (localCount : Nat)
  | issend (dest : Nat) (tag : Nat) (payload : String)
  | recv (src : Nat) (tag : Nat)
  | waitall (count : Nat)
  | freeBuf
  | barrier
  deriving DecidableEq

/-- Start line of a test (mpitest.cpp:105-112). -/
def runningLine (name : String) (n : Nat) : String :=
  "[ RUNNING ] " ++ name ++ " (" ++ toString n ++ " proc"
    ++ (if 1 < n then "s" else "") ++ ")"

/-- Success line of a test (mpitest.cpp:145). -/
def successLine (name : String) : String := "[ SUCCESS ] " ++ name

/-- Failure summary line of a test (mpitest.cpp:212-213). -/
def failLine (name : String) : String := "[ FAIL    ] " ++ name

/-- The coordinator's interleaved receive-and-print phase as events. -/
def recvPhase (ledgers : List (List fail_info)) : List Event :=
  (recvSeq (gatherCounts ledgers)).flatMap
    (fun p => [Event.recv p.1 p.2,
               Event.print ((msgLookup (sendsOf p.1 (ledgers.getD p.1 [])) p.2).getD "")])

/-- Program-order event trace of the participant with sub-rank `r` in one
test case (mpitest.cpp:102-216): start print (rank 0), entry point, count
gather, success print (rank 0, zero total), tagged non-blocking sends,
receive-and-print loop (rank 0), wait for all own sends, release of the
send buffers, failure summary print (rank 0, non-zero total), barrier. -/
def participantTrace (name : String) (ledgers : List (List fail_info)) (r : Nat) :
    List Event :=
  let lg := ledgers.getD r []
  (if r = 0 then [Event.print (runningLine name ledgers.length)] else [])
    ++ [Event.runEntry]
    ++ [Event.gather lg.length]
    ++ (if r = 0 ∧ totalFails ledgers = 0 then [Event.print (successLine name)] else [])
    ++ (sendsOf r lg).map (fun m => Event.issend m.1 m.2.1 m.2.2)
    ++ (if r = 0 then recvPhase ledgers else [])
    ++ [Event.waitall lg.length]
    ++ [Event.freeBuf]
    ++ (if r = 0 ∧ totalFails ledgers ≠ 0 then [Event.print (failLine name)] else [])
    ++ [Event.barrier]

/- ------------------------------------------------------------------ -/
/- Test driver (mpitest.cpp main, lines 32-225)                        -/
/- ------------------------------------------------------------------ -/

/-- The size of the largest registered test (mpitest.cpp:56-61). -/
def largest_test_size (tests : List test_info) : Nat :=
  tests.foldl (fun largest t => if largest < t.test_size then t.test_size else largest) 0

/-- The shortfall diagnostic (mpitest.cpp:66). -/
def shortfallMsg (tests : List test_info) : String :=
  "please launch with at least " ++ toString (largest_test_size tests) ++ " procs!"

/-- Per-process observable outcome of a run. -/
structure RankResult where
  output : List String
  exitCode : Int
  testsExecuted : List Nat
  deriving DecidableEq

/-- The console lines process `r` prints for registered test number `ti`
(mpitest.cpp:102-214).  Only participants (world rank `< test_size`, which
equals their sub-group rank) act; only the sub-group coordinator prints. -/
def testCaseOutput (behave : Nat → Nat → List fail_info) (ti : Nat) (t : test_info)
    (r : Nat) : List String :=
  if r < t.test_size then
    if r = 0 then
      let ledgers := (List.range t.test_size).map (behave ti)
      runningLine t.test_name t.test_size
        :: (if totalFails ledgers = 0 then [successLine t.test_name]
            else coordinatorPrints ledgers ++ [failLine t.test_name])
    else []
  else []

/-- The whole driver observed at world rank `r` (mpitest.cpp:32-225).
`behave ti rank` is the failure ledger the entry point of registered test
`ti` leaves behind on participant `rank` — entry points are external black
boxes that only signal failures through the comparison library.  Models the
launch-size guard, the per-test loop and the final clean shutdown. -/
def runWorld (size : Nat) (l : test_list) (behave : Nat → Nat → List fail_info)
    (r : Nat) : RankResult :=
  let pre : List String := if r = 0 then ["\n\n"] else []
  if size < largest_test_size l.tests then
    { output := pre ++ (if r = 0 then [shortfallMsg l.tests] else [])
      exitCode := 0
      testsExecuted := [] }
  else
    { output := pre ++ (withIdx l.tests).flatMap (fun p => testCaseOutput behave p.1 p.2 r)
      exitCode := 0
      testsExecuted := (withIdx l.tests).filterMap
        (fun p => if r < p.2.test_size then some p.1 else none) }

/-- Events that are communication operations of the aggregation protocol
(the collective count exchange and the point-to-point traffic). -/
def isCommEv : Event → Bool
  | .gather _ => true
  | .issend _ _ _ => true
  | .recv _ _ => true
  | _ => false

/-- Events relevant to the send-buffer lifetime: posting a non-blocking
send, waiting for completion, releasing the buffer. -/
def isSendLifeEv : Event → Bool
  | .issend _ _ _ => true
  | .waitall _ => true
  | .freeBuf => true
  | _ => false

/-- Events relevant to completion-before-next-case: the wait and the
end-of-case barrier. -/
def isWaitBarrierEv : Event → Bool
  | .waitall _ => true
  | .barrier => true
  | _ => false

/- ------------------------------------------------------------------ -/
/- Helper lemmas                                                       -/
/- ------------------------------------------------------------------ -/

theorem flatMap_congr_mem {α β : Type} {l : List α} {f g : α → List β}
    (h : ∀ a ∈ l, f a = g a) : l.flatMap f = l.flatMap g := by
  induction l with
  | nil => rfl
  | cons x xs ih =>
    simp only [List.flatMap_cons, h x (by simp)]
    rw [ih (fun a ha => h a (by simp [ha]))]

theorem filter_flatMap_dist {α β : Type} (l : List α) (f : α → List β) (p : β → Bool) :
    (l.flatMap f).filter p = l.flatMap (fun a => (f a).filter p) := by
  induction l with
  | nil => rfl
  | cons x xs ih => simp only [List.flatMap_cons, List.filter_append, ih]

theorem filterMap_flatMap_dist {α β γ : Type} (l : List α) (f : α → List β)
    (p : β → Option γ) :
    (l.flatMap f).filterMap p = l.flatMap (fun a => (f a).filterMap p) := by
  induction l with
  | nil => rfl
  | cons x xs ih => simp only [List.flatMap_cons, List.filterMap_append, ih]

theorem filter_map_of_true {α β : Type} {p : β → Bool} {f : α → β} (l : List α)
    (h : ∀ x, p (f x) = true) : (l.map f).filter p = l.map f :=
  List.filter_eq_self.mpr (by intro a ha; obtain ⟨x, _, rfl⟩ := List.mem_map.mp ha; exact h x)

theorem filter_map_of_false {α β : Type} {p : β → Bool} {f : α → β} (l : List α)
    (h : ∀ x, p (f x) = false) : (l.map f).filter p = [] := by
  induction l with
  | nil => rfl
  | cons x xs ih => simp only [List.map_cons, List.filter_cons, h x, ih]; simp

theorem withIdxFrom_map {α β : Type} (k : Nat) (f : α → β) (l : List α) :
    withIdxFrom k (l.map f) = (withIdxFrom k l).map (fun p => (p.1, f p.2)) := by
  induction l generalizing k with
  | nil => rfl
  | cons x xs ih => simp only [List.map_cons, withIdxFrom, ih]

theorem withIdxFrom_fst {α : Type} (k : Nat) (l : List α) :
    (withIdxFrom k l).map (fun p => p.1) = List.range' k l.length := by
  induction l generalizing k with
  | nil => rfl
  | cons x xs ih => simp only [withIdxFrom, List.map_cons, ih, List.length_cons, List.range']

theorem mem_withIdxFrom {α : Type} {k : Nat} {l : List α} {p : Nat × α}
    (h : p ∈ withIdxFrom k l) : ∃ j, p.1 = k + j ∧ l[j]? = some p.2 := by
  induction l generalizing k with
  | nil => cases h
  | cons x xs ih =>
    rcases List.mem_cons.mp h with heq | hmem
    · subst heq; exact ⟨0, rfl, by simp⟩
    · obtain ⟨j, hj1, hj2⟩ := ih hmem
      exact ⟨j + 1, by omega, by simpa using hj2⟩

theorem find_withIdxFrom_map {α β γ : Type} (c : γ) (g : α → β) (lg : List α)
    (k fi : Nat) :
    List.find? (fun m => m.2.1 == k + fi)
        ((withIdxFrom k lg).map (fun p => (c, p.1, g p.2)))
      = (lg[fi]?).map (fun f => (c, k + fi, g f)) := by
  induction lg generalizing k fi with
  | nil => rfl
  | cons x xs ih =>
    cases fi with
    | zero => simp [withIdxFrom, List.find?]
    | succ fj =>
      have hne : (k == k + (fj + 1)) = false := by
        simp only [beq_eq_false_iff_ne, ne_eq]
        omega
      simp only [withIdxFrom, List.map_cons, List.find?, hne]
      have := ih (k + 1) fj
      simp only [Nat.add_succ, Nat.succ_add] at this ⊢
      simpa using this

theorem msgLookup_sendsOf (r : Nat) (lg : List fail_info) (fi : Nat) :
    msgLookup (sendsOf r lg) fi = (lg[fi]?).map (fmtFailMsg r) := by
  have h := find_withIdxFrom_map (0 : Nat) (fmtFailMsg r) lg 0 fi
  simp only [Nat.zero_add] at h
  simp only [msgLookup, sendsOf, withIdx, h]
  cases lg[fi]? <;> simp

theorem range_filterMap_get {α β : Type} (l : List α) (g : α → β) :
    (List.range l.length).filterMap (fun i => (l[i]?).map g) = l.map g := by
  induction l using List.reverseRecOn with
  | nil => rfl
  | append_singleton xs x ih =>
    rw [List.length_append, List.length_singleton, List.range_succ, List.filterMap_append,
        List.map_append]
    congr 1
    · rw [← ih]
      exact List.filterMap_congr (fun i hi => by
        rw [List.getElem?_append_left (by simpa using List.mem_range.mp hi)])
    · simp

/-- The coordinator's receive-and-print loop reproduces every participant's
formatted failure records, in ascending rank order and, within a rank, in
ascending ledger order. -/
theorem coordinatorPrints_eq (ledgers : List (List fail_info)) :
    coordinatorPrints ledgers
      = (withIdx ledgers).flatMap (fun p => p.2.map (fmtFailMsg p.1)) := by
  unfold coordinatorPrints recvSeq gatherCounts withIdx
  rw [filterMap_flatMap_dist, withIdxFrom_map, List.flatMap_map]
  apply flatMap_congr_mem
  intro p hp
  obtain ⟨j, hj1, hj2⟩ := mem_withIdxFrom hp
  simp only [Nat.zero_add] at hj1
  have hgd : ledgers.getD p.1 [] = p.2 := by
    rw [List.getD_eq_getElem?_getD, hj1, hj2]; rfl
  show ((List.range p.2.length).map (fun fi => (p.1, fi))).filterMap
      (fun q => msgLookup (sendsOf q.1 (ledgers.getD q.1 [])) q.2) = _
  rw [List.filterMap_map]
  have step1 : (List.range p.2.length).filterMap
        ((fun q => msgLookup (sendsOf q.1 (ledgers.getD q.1 [])) q.2) ∘ (fun fi => (p.1, fi)))
      = (List.range p.2.length).filterMap (fun fi => (p.2[fi]?).map (fmtFailMsg p.1)) :=
    List.filterMap_congr (fun fi _ => by
      simp only [Function.comp_apply, hgd]
      exact msgLookup_sendsOf p.1 p.2 fi)
  rw [step1, range_filterMap_get]

theorem flatMap_singleton_eq_map {α β : Type} (f : α → β) (l : List α) :
    l.flatMap (fun a => [f a]) = l.map f := by
  induction l with
  | nil => rfl
  | cons x xs ih => simp only [List.flatMap_cons, ih, List.map_cons, List.singleton_append]

theorem flatMap_const_nil {α β : Type} (l : List α) :
    l.flatMap (fun _ => ([] : List β)) = [] := by
  induction l with
  | nil => rfl
  | cons x xs ih => simp only [List.flatMap_cons, ih, List.nil_append]

theorem flatMap_nil_of {α β : Type} {l : List α} {f : α → List β}
    (h : ∀ a ∈ l, f a = []) : l.flatMap f = [] := by
  rw [flatMap_congr_mem h, flatMap_const_nil]

theorem recvPhase_filter_comm (ledgers : List (List fail_info)) :
    (recvPhase ledgers).filter isCommEv
      = (recvSeq (gatherCounts ledgers)).map (fun p => Event.recv p.1 p.2) := by
  unfold recvPhase
  rw [filter_flatMap_dist]
  have h : ∀ p : Nat × Nat,
      ([Event.recv p.1 p.2,
        Event.print ((msgLookup (sendsOf p.1 (ledgers.getD p.1 [])) p.2).getD "")].filter isCommEv)
        = [Event.recv p.1 p.2] := fun p => rfl
  rw [flatMap_congr_mem (fun a _ => h a), flatMap_singleton_eq_map]

theorem recvPhase_filter_none (ledgers : List (List fail_info)) {p : Event → Bool}
    (h1 : ∀ a b, p (Event.recv a b) = false) (h2 : ∀ s, p (Event.print s) = false) :
    (recvPhase ledgers).filter p = [] := by
  unfold recvPhase
  rw [filter_flatMap_dist]
  apply flatMap_nil_of
  intro a _
  simp [List.filter, h1, h2]

theorem le_foldl_largest (tests : List test_info) (acc : Nat) :
    acc ≤ tests.foldl (fun largest t => if largest < t.test_size then t.test_size else largest) acc := by
  induction tests generalizing acc with
  | nil => exact Nat.le_refl acc
  | cons t ts ih =>
    refine Nat.le_trans ?_ (ih _)
    dsimp only [List.foldl]
    split <;> omega

theorem largest_test_size_ge {tests : List test_info} {t : test_info} (ht : t ∈ tests) :
    t.test_size ≤ largest_test_size tests := by
  unfold largest_test_size
  generalize (0 : Nat) = acc
  induction tests generalizing acc with
  | nil => cases ht
  | cons u us ih =>
    rcases List.mem_cons.mp ht with rfl | hmem
    · exact Nat.le_trans
        (show t.test_size ≤ if acc < t.test_size then t.test_size else acc by split <;> omega)
        (le_foldl_largest us _)
    · exact ih hmem _

theorem ledger_nil_of_totalFails_zero {ledgers : List (List fail_info)}
    (h : totalFails ledgers = 0) (r : Nat) : ledgers.getD r [] = [] := by
  unfold totalFails gatherCounts at h
  rw [List.getD_eq_getElem?_getD]
  cases hr : ledgers[r]? with
  | none => rfl
  | some lg =>
    have hmem : lg ∈ ledgers := List.getElem?_mem hr
    have hlen : lg.length = 0 :=
      List.sum_eq_zero_iff.mp h _ (List.mem_map.mpr ⟨lg, hmem, rfl⟩)
    simp [List.length_eq_zero.mp hlen]

theorem recvSeq_all_zero {counts : List Nat} (h : ∀ c ∈ counts, c = 0) :
    recvSeq counts = [] := by
  unfold recvSeq
  apply flatMap_nil_of
  intro a ha
  obtain ⟨j, _, hj2⟩ := mem_withIdxFrom ha
  have : a.2 = 0 := h _ (List.getElem?_mem hj2)
  simp [this]

theorem recvSeq_filter_src {counts : List Nat} {r : Nat} (h : counts.getD r 0 = 0) :
    (recvSeq counts).filter (fun p => p.1 == r) = [] := by
  unfold recvSeq
  rw [filter_flatMap_dist]
  apply flatMap_nil_of
  intro a ha
  obtain ⟨j, hj1, hj2⟩ := mem_withIdxFrom ha
  simp only [Nat.zero_add] at hj1
  by_cases hr : a.1 = r
  · have : a.2 = 0 := by
      rw [List.getD_eq_getElem?_getD] at h
      rw [← hr, hj1, hj2] at h
      simpa using h
    simp [this]
  · exact filter_map_of_false _ (fun fi => by simpa using hr)

theorem withIdxFrom_length {α : Type} (k : Nat) (l : List α) :
    (withIdxFrom k l).length = l.length := by
  induction l generalizing k with
  | nil => rfl
  | cons x xs ih => simp only [withIdxFrom, List.length_cons, ih]

theorem keyScaled_nonneg {u : Nat} (h : signbitB u = false) : 0 ≤ keyScaled u := by
  have hu : ¬ (2 ^ 63 ≤ u) := by simpa [signbitB] using h
  have hs : f64_sign u = 0 := Nat.div_eq_of_lt (by omega)
  unfold keyScaled toScaled
  rw [hs]
  split
  · norm_num
  · split
    · simp
    · simp
      positivity

theorem fgtB_zero_of_nonneg {t : Nat} (h : signbitB t = false) : fgtB 0 t = false := by
  unfold fgtB fltB
  have h0 : keyScaled 0 = 0 := rfl
  have hnlt : ¬ (keyScaled t < keyScaled 0) := by
    rw [h0]; exact not_lt.mpr (keyScaled_nonneg h)
  simp [hnlt]

theorem assert_true_shape {T : Type} (truthy : T → Bool) (toStr : T → String) (x : T) :
    assert_true truthy toStr x = (true, none)
    ∨ ∃ m, assert_true truthy toStr x = (false, some m) := by
  unfold assert_true
  split
  · exact Or.inl rfl
  · exact Or.inr ⟨_, rfl⟩

theorem assert_eq_shape {T : Type} [DecidableEq T] (toStr : T → String) (a b : T) :
    assert_eq toStr a b = (true, none)
    ∨ ∃ m, assert_eq toStr a b = (false, some m) := by
  unfold assert_eq
  split
  · exact Or.inl rfl
  · exact Or.inr ⟨_, rfl⟩

theorem assert_ieee754_eq_shape (a b : Nat) (u : Int) (t : Nat) :
    assert_ieee754_eq a b u t = (true, none)
    ∨ ∃ m, assert_ieee754_eq a b u t = (false, some m) := by
  unfold assert_ieee754_eq
  repeat' split
  all_goals first | exact Or.inl rfl | exact Or.inr ⟨_, rfl⟩

theorem runAssert_spec (l : test_list) (info : assert_info) (hok : current_ok l)
    (res : Bool × Option String)
    (hshape : res = (true, none) ∨ ∃ m, res = (false, some m)) :
    (res.2 = none → res.1 = true ∧ runAssert l info res = some (true, l))
    ∧ (∀ m, res.2 = some m → res.1 = false
        ∧ runAssert l info res = some (false,
            { l with tests := l.tests.set l.current_test.toNat (
                { l.tests.getD l.current_test.toNat default with
                  fails := (l.tests.getD l.current_test.toNat default).fails
                            ++ [⟨info, m⟩] }) })) := by
  rcases hshape with rfl | ⟨m, rfl⟩
  · exact ⟨fun _ => ⟨rfl, rfl⟩, fun m hm => absurd hm (by simp)⟩
  · constructor
    · intro hnone; exact absurd hnone (by simp)
    · intro m2 hm2
      have hm : m2 = m := by simpa using hm2.symm
      subst hm
      refine ⟨rfl, ?_⟩
      show (register_error l info m2).map (fun l2 => (false, l2)) = _
      unfold register_error
      rw [dif_pos hok]
      have hget : l.tests.get ⟨l.current_test.toNat, hok.2⟩
          = l.tests.getD l.current_test.toNat default := by
        rw [List.getD_eq_getElem _ _ hok.2, List.get_eq_getElem]
      simp [hget, List.getElem?_eq_getElem hok.2]

/- ------------------------------------------------------------------ -/
/- Claims                                                              -/
/- ------------------------------------------------------------------ -/

/-- C2: if the launched process-group size is smaller than the maximum
`required_size` over all registered tests, then (on every rank) no test's
entry point is executed, the exit status is 0, the diagnostic line — which
names the minimum required process count, the maximum of all registered
sizes — is printed exactly once, by rank 0 only. -/
theorem c2_shortfall_clean_abort (size : Nat) (l : test_list)
    (behave : Nat → Nat → List fail_info) (r : Nat)
    (h : size < largest_test_size l.tests) :
    (runWorld size l behave r).testsExecuted = []
    ∧ (runWorld size l behave r).exitCode = 0
    ∧ (runWorld size l behave r).output
        = (if r = 0 then ["\n\n", shortfallMsg l.tests] else [])
    ∧ shortfallMsg l.tests
        = "please launch with at least " ++ toString (largest_test_size l.tests)
            ++ " procs!"
    ∧ (∀ t ∈ l.tests, t.test_size ≤ largest_test_size l.tests) := by
  unfold runWorld
  rw [if_pos h]
  refine ⟨rfl, rfl, ?_, rfl, fun t ht => largest_test_size_ge ht⟩
  by_cases hr : r = 0 <;> simp [hr]

/-- C2 witness: a single registered test requiring 2 processes, launched
with 1 process. -/
theorem c2_shortfall_clean_abort_witness :
    1 < largest_test_size (test_list.mk 0 [⟨"t", 2, []⟩]).tests
    ∧ (runWorld 1 ⟨0, [⟨"t", 2, []⟩]⟩ (fun _ _ => []) 0).testsExecuted = []
    ∧ (runWorld 1 ⟨0, [⟨"t", 2, []⟩]⟩ (fun _ _ => []) 0).output
        = ["\n\n", "please launch with at least 2 procs!"] :=
  ⟨by decide,
   (c2_shortfall_clean_abort 1 ⟨0, [⟨"t", 2, []⟩]⟩ (fun _ _ => []) 0 (by decide)).1,
   by
    have h2 := (c2_shortfall_clean_abort 1 ⟨0, [⟨"t", 2, []⟩]⟩ (fun _ _ => []) 0
      (by decide)).2.2.1
    rw [h2]; decide⟩

/-- C4 counterexample: the claim says a record registered with no test case
marked active is silently dropped leaving the registry unchanged.  In the
code the registry starts with `current_test = 0` (static zero-init) and no
case active; `register_error` then appends to test 0's ledger — the state
changes — and with an empty test vector the access is out of bounds
(undefined behaviour), not a silent drop. -/
theorem c4_silent_drop_counterexample :
    register_error ⟨0, [⟨"t", 1, []⟩]⟩ ⟨7, "f.cpp", "EXPECT_TRUE(x)"⟩ "boom"
        ≠ some ⟨0, [⟨"t", 1, []⟩]⟩
    ∧ register_error ⟨0, [⟨"t", 1, []⟩]⟩ ⟨7, "f.cpp", "EXPECT_TRUE(x)"⟩ "boom"
        = some ⟨0, [⟨"t", 1, [⟨⟨7, "f.cpp", "EXPECT_TRUE(x)"⟩, "boom"⟩]⟩]⟩
    ∧ register_error ⟨0, []⟩ ⟨7, "f.cpp", "EXPECT_TRUE(x)"⟩ "boom" = none := by
  refine ⟨?_, ?_, ?_⟩ <;> decide

/-- C4 amended: `register_error` has no "active test" guard at all.  When
`current_test` indexes a registered test it appends the record to that
test's ledger (even when no test is running: the default cursor is 0);
when the index is out of range the vector access is out of bounds
(undefined behaviour, modelled as `none`).  No record is silently
dropped. -/
theorem c4_register_error_no_guard (l : test_list) (a : assert_info) (r : String) :
    (current_ok l →
      register_error l a r = some
        { l with tests := l.tests.set l.current_test.toNat (
            { l.tests.getD l.current_test.toNat default with
              fails := (l.tests.getD l.current_test.toNat default).fails
                        ++ [⟨a, r⟩] }) })
    ∧ (¬ current_ok l → register_error l a r = none) := by
  constructor
  · intro h
    unfold register_error
    rw [dif_pos h]
    have hget : l.tests.get ⟨l.current_test.toNat, h.2⟩
        = l.tests.getD l.current_test.toNat default := by
      rw [List.getD_eq_getElem _ _ h.2, List.get_eq_getElem]
    simp [hget, List.getElem?_eq_getElem h.2]
  · intro h
    unfold register_error
    rw [dif_neg h]

/-- C4 amended witness: concrete in-bounds and out-of-bounds registrations. -/
theorem c4_register_error_no_guard_witness :
    current_ok ⟨0, [⟨"t", 1, []⟩]⟩
    ∧ register_error ⟨0, [⟨"t", 1, []⟩]⟩ ⟨7, "f.cpp", "EXPECT_TRUE(x)"⟩ "boom"
        = some ⟨0, [⟨"t", 1, [⟨⟨7, "f.cpp", "EXPECT_TRUE(x)"⟩, "boom"⟩]⟩]⟩
    ∧ ¬ current_ok ⟨0, ([] : List test_info)⟩
    ∧ register_error ⟨0, []⟩ ⟨7, "f.cpp", "EXPECT_TRUE(x)"⟩ "boom" = none :=
  ⟨by decide,
   ((c4_register_error_no_guard ⟨0, [⟨"t", 1, []⟩]⟩ ⟨7, "f.cpp", "EXPECT_TRUE(x)"⟩
      "boom").1 (by decide)).trans (by decide),
   by decide,
   (c4_register_error_no_guard ⟨0, []⟩ ⟨7, "f.cpp", "EXPECT_TRUE(x)"⟩ "boom").2
     (by decide)⟩

/-- C6: whenever either operand of `assert_ieee754_eq` is NaN or infinite
the predicate fails immediately, for every `ulp_tol` and `abs_tol`, and the
recorded reason names which operand is at fault and whether it is NaN or
infinite. -/
theorem c6_nan_inf_quick_fail (a b : Nat) (ulp_tol : Int) (abs_tol : Nat)
    (h : isNanP a ∨ isInfP a ∨ isNanP b ∨ isInfP b) :
    assert_ieee754_eq a b ulp_tol abs_tol
      = (false, some (
          (if isNanP a then "the first argument is nan! "
           else if isInfP a then "the first argument is inf! " else "")
          ++ (if isNanP b then "the second argument is nan! "
              else if isInfP b then "the second argument is inf! " else ""))) := by
  have hq : ¬ isFiniteP a ∨ ¬ isFiniteP b := by
    unfold isFiniteP
    rcases h with hc | hc | hc | hc
    · exact Or.inl (by simpa using hc.1)
    · exact Or.inl (by simpa using hc.1)
    · exact Or.inr (by simpa using hc.1)
    · exact Or.inr (by simpa using hc.1)
  unfold assert_ieee754_eq
  rw [if_pos hq]

/-- C6 witness: a NaN second operand (the dummy suite's
`ASSERT_FLOAT_EQ(..., NAN, 10)` analogue, here in binary64). -/
theorem c6_nan_inf_quick_fail_witness :
    isNanP 0x7FF8000000000000
    ∧ assert_ieee754_eq 1 0x7FF8000000000000 10 dblEpsP
        = (false, some "the second argument is nan! ") :=
  ⟨by decide,
   (c6_nan_inf_quick_fail 1 0x7FF8000000000000 10 dblEpsP
      (Or.inr (Or.inr (Or.inl (by decide))))).trans (by decide)⟩

/-- C7: `assert_eq` succeeds on every pair of equal values and fails on
every pair of distinct values, recording a message that contains both
rendered values. -/
theorem c7_assert_eq_exact (T : Type) [DecidableEq T] (toStr : T → String)
    (x y : T) (hxy : x ≠ y) :
    assert_eq toStr x x = (true, none)
    ∧ assert_eq toStr x y = (false, some (toStr x ++ " does not equal " ++ toStr y))
    ∧ (∃ pre post, toStr x ++ " does not equal " ++ toStr y = pre ++ toStr x ++ post)
    ∧ (∃ pre post, toStr x ++ " does not equal " ++ toStr y = pre ++ toStr y ++ post) := by
  refine ⟨?_, ?_, ⟨"", " does not equal " ++ toStr y, ?_⟩,
          ⟨toStr x ++ " does not equal ", "", ?_⟩⟩
  · unfold assert_eq; rw [if_pos rfl]
  · unfold assert_eq; rw [if_neg hxy]
  · simp [String.append_assoc]
  · simp [String.append_assoc]

/-- C7 witness: naturals 3 and 4 with the standard rendering. -/
theorem c7_assert_eq_exact_witness :
    assert_eq toString (3 : Nat) (3 : Nat) = (true, none)
    ∧ assert_eq toString (3 : Nat) (4 : Nat) = (false, some "3 does not equal 4") :=
  ⟨(c7_assert_eq_exact Nat toString 3 4 (by decide)).1,
   ((c7_assert_eq_exact Nat toString 3 4 (by decide)).2.1).trans (by decide)⟩

/-- C10: `assert_ieee754_eq` is reflexive on every finite double, for every
non-negative `ulp_tol` and non-negative `abs_tol`, recording no failure;
both the absolute-comparison branch and the ULP branch return success. -/
theorem c10_reflexive_on_finite (x : Nat) (ulp_tol : Int) (abs_tol : Nat)
    (hx : isFiniteP x) (_hu : 0 ≤ ulp_tol) (ha : signbitB abs_tol = false) :
    assert_ieee754_eq x x ulp_tol abs_tol = (true, none) := by
  have hq : ¬ (¬ isFiniteP x ∨ ¬ isFiniteP x) := by simp [hx]
  unfold assert_ieee754_eq
  rw [if_neg hq]
  by_cases habs : signbitB x ≠ signbitB x ∨ (fltB (fabsP x) abs_tol ∧ fltB (fabsP x) abs_tol)
  · rw [if_pos habs]
    have hfsub : fsub x x = 0 := by
      unfold fsub
      rw [sub_self]
      rfl
    have hdiff : fabsP (fsub x x) = 0 := by rw [hfsub]; rfl
    rw [hdiff, if_neg (by rw [fgtB_zero_of_nonneg ha]; exact Bool.false_ne_true)]
  · rw [if_neg habs, if_neg (lt_irrefl x), if_neg (lt_irrefl x)]

/-- C10 witness: the double 1337.0 with the default epsilon tolerance. -/
theorem c10_reflexive_on_finite_witness :
    isFiniteP (f64OfRat 1337 1)
    ∧ assert_ieee754_eq (f64OfRat 1337 1) (f64OfRat 1337 1) 10 dblEpsP
        = (true, none) :=
  ⟨by decide,
   c10_reflexive_on_finite (f64OfRat 1337 1) 10 dblEpsP (by decide) (by decide)
     (by decide)⟩

/-- C3: each comparison predicate (`assert_true`, `assert_eq`,
`assert_ieee754_eq`) either succeeds with no reason — composing with
registration then leaves the registry (hence every ledger) unchanged — or
fails with exactly one reason whose registration appends exactly one record
to the ledger of the currently active test (in-bounds cursor hypothesis, as
the driver guarantees), leaving every other test untouched. -/
theorem c3_predicates_side_effects (T : Type) [DecidableEq T]
    (truthy : T → Bool) (toStr : T → String) (x a b : T)
    (pa pb : Nat) (ut : Int) (atol : Nat)
    (l : test_list) (info : assert_info) (hok : current_ok l) :
    (((assert_true truthy toStr x).2 = none →
        (assert_true truthy toStr x).1 = true
        ∧ runAssert l info (assert_true truthy toStr x) = some (true, l))
      ∧ (∀ m, (assert_true truthy toStr x).2 = some m →
          (assert_true truthy toStr x).1 = false
          ∧ runAssert l info (assert_true truthy toStr x) = some (false,
              { l with tests := l.tests.set l.current_test.toNat (
                  { l.tests.getD l.current_test.toNat default with
                    fails := (l.tests.getD l.current_test.toNat default).fails
                              ++ [⟨info, m⟩] }) })))
    ∧ (((assert_eq toStr a b).2 = none →
        (assert_eq toStr a b).1 = true
        ∧ runAssert l info (assert_eq toStr a b) = some (true, l))
      ∧ (∀ m, (assert_eq toStr a b).2 = some m →
          (assert_eq toStr a b).1 = false
          ∧ runAssert l info (assert_eq toStr a b) = some (false,
              { l with tests := l.tests.set l.current_test.toNat (
                  { l.tests.getD l.current_test.toNat default with
                    fails := (l.tests.getD l.current_test.toNat default).fails
                              ++ [⟨info, m⟩] }) })))
    ∧ (((assert_ieee754_eq pa pb ut atol).2 = none →
        (assert_ieee754_eq pa pb ut atol).1 = true
        ∧ runAssert l info (assert_ieee754_eq pa pb ut atol) = some (true, l))
      ∧ (∀ m, (assert_ieee754_eq pa pb ut atol).2 = some m →
          (assert_ieee754_eq pa pb ut atol).1 = false
          ∧ runAssert l info (assert_ieee754_eq pa pb ut atol) = some (false,
              { l with tests := l.tests.set l.current_test.toNat (
                  { l.tests.getD l.current_test.toNat default with
                    fails := (l.tests.getD l.current_test.toNat default).fails
                              ++ [⟨info, m⟩] }) }))) :=
  ⟨runAssert_spec l info hok _ (assert_true_shape truthy toStr x),
   runAssert_spec l info hok _ (assert_eq_shape toStr a b),
   runAssert_spec l info hok _ (assert_ieee754_eq_shape pa pb ut atol)⟩

/-- C3 witness: a succeeding `assert_eq` on a singleton registry with the
cursor in bounds leaves the registry unchanged. -/
theorem c3_predicates_side_effects_witness :
    current_ok ⟨0, [⟨"t", 1, []⟩]⟩
    ∧ runAssert ⟨0, [⟨"t", 1, []⟩]⟩ ⟨1, "f.cpp", "E"⟩
        (assert_eq toString (1 : Nat) 1) = some (true, ⟨0, [⟨"t", 1, []⟩]⟩) :=
  ⟨by decide,
   ((c3_predicates_side_effects Nat (fun n => decide (n ≠ 0)) toString 1 1 1 0 0 10 0
      ⟨0, [⟨"t", 1, []⟩]⟩ ⟨1, "f.cpp", "E"⟩ (by decide)).2.1.1 (by decide)).2⟩

set_option maxRecDepth 100000 in
/-- C5: for finite operands, the sign-straddle-or-near-zero branch fails
exactly when the (correctly rounded) absolute difference exceeds `abs_tol`,
and otherwise the predicate fails exactly when the distance between the
operands' bit patterns, as unsigned integers, exceeds the converted
`ulp_tol`; concretely, `(0.0, 1e-8)` with `ulp_tol = 10, abs_tol = 5e-8`
succeeds and `(-0.000001, 0.000001)` with `ulp_tol = 10` and the default
`abs_tol` fails. -/
theorem c5_tolerance_branches (a b : Nat) (ulp_tol : Int) (abs_tol : Nat)
    (ha : isFiniteP a) (hb : isFiniteP b) :
    ((signbitB a ≠ signbitB b ∨ (fltB (fabsP a) abs_tol ∧ fltB (fabsP b) abs_tol)) →
      ((assert_ieee754_eq a b ulp_tol abs_tol).1 = false
        ↔ fgtB (fabsP (fsub a b)) abs_tol = true))
    ∧ (¬ (signbitB a ≠ signbitB b ∨ (fltB (fabsP a) abs_tol ∧ fltB (fabsP b) abs_tol)) →
      ((assert_ieee754_eq a b ulp_tol abs_tol).1 = false
        ↔ (ulp_tol % 2 ^ 64).toNat < (if b < a then a - b else b - a)))
    ∧ (assert_ieee754_eq 0 (f64OfRat 1 100000000) 10 (f64OfRat 5 100000000)).1 = true
    ∧ (assert_ieee754_eq (f64OfRat (-1) 1000000) (f64OfRat 1 1000000) 10 dblEpsP).1
        = false := by
  have hq : ¬ (¬ isFiniteP a ∨ ¬ isFiniteP b) := by simp [ha, hb]
  refine ⟨?_, ?_, by decide, by decide⟩
  · intro hcond
    unfold assert_ieee754_eq
    rw [if_neg hq, if_pos hcond]
    split
    · rename_i hgt; simp [hgt]
    · rename_i hgt; simp [hgt]
  · intro hcond
    unfold assert_ieee754_eq
    rw [if_neg hq, if_neg hcond]
    rcases Nat.lt_trichotomy b a with hba | hba | hba
    · rw [if_pos hba, if_pos hba]
      split <;> simp_all
    · subst hba
      simp
    · have hnb : ¬ b < a := Nat.lt_asymm hba
      rw [if_neg hnb, if_pos hba, if_neg hnb]
      split <;> simp_all

/-- C5 witness: the zero operand is finite; the near-zero concrete instance
succeeds through the absolute-comparison path. -/
theorem c5_tolerance_branches_witness :
    isFiniteP 0
    ∧ (assert_ieee754_eq 0 (f64OfRat 1 100000000) 10 (f64OfRat 5 100000000)).1
        = true :=
  ⟨by decide, (c5_tolerance_branches 0 0 10 0 (by decide) (by decide)).2.2.1⟩

/-- C1: for a test case with at least one recorded failure, the coordinator
prints every participant's formatted failure records exactly once — the
print sequence equals the concatenation, over participants in ascending
rank order, of each ledger in ascending index order; each posted message's
tag equals the record's zero-based index in its sender's ledger; and in
every participant's program order the collective count exchange precedes
every point-to-point send and receive of the case. -/
theorem c1_ordered_exactly_once_report (name : String)
    (ledgers : List (List fail_info)) (hne : 0 < totalFails ledgers) :
    coordinatorPrints ledgers
        = (withIdx ledgers).flatMap (fun p => p.2.map (fmtFailMsg p.1))
    ∧ (∀ r : Nat, (sendsOf r (ledgers.getD r [])).map (fun m => m.2.1)
        = List.range (ledgers.getD r []).length)
    ∧ (∀ r : Nat, (participantTrace name ledgers r).filter isCommEv
        = Event.gather (ledgers.getD r []).length
            :: ((sendsOf r (ledgers.getD r [])).map
                  (fun m => Event.issend m.1 m.2.1 m.2.2)
                ++ (if r = 0 then
                      (recvSeq (gatherCounts ledgers)).map
                        (fun p => Event.recv p.1 p.2)
                    else []))) := by
  refine ⟨coordinatorPrints_eq ledgers, ?_, ?_⟩
  · intro r
    unfold sendsOf withIdx
    rw [List.map_map]
    have hcomp : ((fun m : Nat × Nat × String => m.2.1)
        ∘ fun p : Nat × fail_info => ((0 : Nat), p.1, fmtFailMsg r p.2))
        = fun p : Nat × fail_info => p.1 := rfl
    rw [hcomp, withIdxFrom_fst, ← List.range_eq_range']
  · intro r
    have ht : totalFails ledgers ≠ 0 := by omega
    simp only [participantTrace, List.filter_append]
    rw [filter_map_of_true _ (fun m => rfl)]
    by_cases hr : r = 0
    · subst hr
      simp [ht, recvPhase_filter_comm, isCommEv, List.filter]
    · simp [hr, ht, isCommEv, List.filter]

/-- C1 witness: a single participant with one recorded failure. -/
theorem c1_ordered_exactly_once_report_witness :
    0 < totalFails [[⟨⟨31, "d.cpp", "EXPECT_EQ(a, b)"⟩, "1 does not equal 2"⟩]]
    ∧ coordinatorPrints [[⟨⟨31, "d.cpp", "EXPECT_EQ(a, b)"⟩, "1 does not equal 2"⟩]]
        = (withIdx [[⟨⟨31, "d.cpp", "EXPECT_EQ(a, b)"⟩, "1 does not equal 2"⟩]]).flatMap
            (fun p => p.2.map (fmtFailMsg p.1)) :=
  ⟨by decide,
   (c1_ordered_exactly_once_report "t"
      [[⟨⟨31, "d.cpp", "EXPECT_EQ(a, b)"⟩, "1 does not equal 2"⟩]] (by decide)).1⟩

/-- C8: a test case whose summed failure count is zero produces a success
print on the coordinator and no point-to-point traffic at all (no sends
from any rank, an empty receive schedule); independently, any participant
whose local count is zero posts no sends, and the coordinator's receive
loop bound for that participant — its gathered count — is zero, so no
receive addresses it, whatever the other participants report. -/
theorem c8_zero_failures_no_traffic (name : String)
    (ledgers : List (List fail_info)) :
    (totalFails ledgers = 0 →
        coordinatorPrints ledgers = []
        ∧ Event.print (successLine name) ∈ participantTrace name ledgers 0
        ∧ (∀ r, sendsOf r (ledgers.getD r []) = [])
        ∧ recvSeq (gatherCounts ledgers) = [])
    ∧ (∀ r, (ledgers.getD r []).length = 0 →
        sendsOf r (ledgers.getD r []) = []
        ∧ (gatherCounts ledgers).getD r 0 = 0
        ∧ (recvSeq (gatherCounts ledgers)).filter (fun p => p.1 == r) = []) := by
  constructor
  · intro h0
    have hled : ∀ r, ledgers.getD r [] = [] := ledger_nil_of_totalFails_zero h0
    have hcz : ∀ c ∈ gatherCounts ledgers, c = 0 := by
      unfold totalFails at h0
      exact List.sum_eq_zero_iff.mp h0
    have hrs : recvSeq (gatherCounts ledgers) = [] := recvSeq_all_zero hcz
    refine ⟨?_, ?_, ?_, hrs⟩
    · unfold coordinatorPrints
      rw [hrs]
      rfl
    · simp [participantTrace, h0]
    · intro r
      rw [hled r]
      rfl
  · intro r hr
    have hlg : ledgers.getD r [] = [] := List.length_eq_zero.mp hr
    have hcd : (gatherCounts ledgers).getD r 0 = 0 := by
      unfold gatherCounts
      rw [List.getD_eq_getElem?_getD, List.getElem?_map]
      cases hx : ledgers[r]? with
      | none => rfl
      | some lg =>
        have hnil : lg = [] := by
          have hgd := List.getD_eq_getElem?_getD ledgers r []
          rw [hx] at hgd
          rw [hgd] at hlg
          simpa using hlg
        simp [hnil]
    exact ⟨by rw [hlg]; rfl, hcd, recvSeq_filter_src hcd⟩

/-- C8 witness: one participant, empty ledger. -/
theorem c8_zero_failures_no_traffic_witness :
    totalFails [([] : List fail_info)] = 0
    ∧ coordinatorPrints [([] : List fail_info)] = [] :=
  ⟨by decide, ((c8_zero_failures_no_traffic "t" [[]]).1 (by decide)).1⟩

/-- C9: in every participant's program order for a test case, posting the
non-blocking sends, waiting for all of them, and releasing the send
buffers occur in exactly that order (every `issend` precedes the single
`waitall`, which precedes the buffer release); the `waitall` covers
exactly as many requests as the participant posted sends (one per ledger
record); and the wait completes before the end-of-case barrier. -/
theorem c9_waitall_before_release (name : String) (ledgers : List (List fail_info))
    (r : Nat) :
    (participantTrace name ledgers r).filter isSendLifeEv
        = (sendsOf r (ledgers.getD r [])).map (fun m => Event.issend m.1 m.2.1 m.2.2)
          ++ [Event.waitall (ledgers.getD r []).length, Event.freeBuf]
    ∧ (participantTrace name ledgers r).filter isWaitBarrierEv
        = [Event.waitall (ledgers.getD r []).length, Event.barrier]
    ∧ (sendsOf r (ledgers.getD r [])).length = (ledgers.getD r []).length := by
  refine ⟨?_, ?_, ?_⟩
  · simp only [participantTrace, List.filter_append]
    rw [filter_map_of_true _ (fun m => rfl)]
    simp [apply_ite (List.filter isSendLifeEv),
          @recvPhase_filter_none ledgers isSendLifeEv (fun _ _ => rfl) (fun _ => rfl),
          isSendLifeEv, List.filter]
  · simp only [participantTrace, List.filter_append]
    rw [filter_map_of_false _ (fun m => rfl)]
    simp [apply_ite (List.filter isWaitBarrierEv),
          @recvPhase_filter_none ledgers isWaitBarrierEv (fun _ _ => rfl) (fun _ => rfl),
          isWaitBarrierEv, List.filter]
  · unfold sendsOf withIdx
    rw [List.length_map, withIdxFrom_length]
